import Mathlib

/-!
# A shallow embedding of the dogconf semantic analyzer

This file embeds the semantic-analysis layer of the `dog` repository
(`dogconf` package: `sem.go` in its fuller revision, `sem_types.go`,
`net_help.go`) as executable Lean definitions, and proves properties of
that embedding.

Conventions of the embedding:

* Go machine integers are modelled as `Nat`/`Int` with explicit bounds
  where the source checks them (`uint64` parsing checks `< 2^64`,
  `dtoi` checks its `big` bound, ports are checked against `0xFFFF`).
* A Go `(value, error)` pair, where the code can additionally `panic`,
  is modelled by `SemResult`: `ok`, `err` (a returned `error`), or
  `fatal` (a Go panic / slice-bounds fault).
* The `Blamer` capability is modelled by a `Pos` carried by every
  syntax node; `blam.Blame().Pos` is the node's `pos` field.  An error
  built through `semErrf` records `some pos`; errors built with bare
  `fmt.Errorf`/`errors.New` (no position decoration) record `none`.
* Wrapping in the `ErrBadTarget` struct is modelled by the `badTarget`
  flag of `SemError`.
* The Go standard-library collaborators of `net_help.go`
  (`net.SplitHostPort`, `net.ParseIP`, `net.LookupPort`) are external
  to the repository; they are passed in as a `NetOracle` record of
  functions, and the theorems hold for every oracle.
* A Go `map[*Token]*Token` is modelled by the list of its entries in
  iteration order; Go leaves that order unspecified, so properties
  about "the same map" quantify over permutations of the entry list.
-/

namespace Dogconf

/-- A source position carried by every token and syntax node
(the `Pos` a `Blamer` reports). -/
structure Pos where
  line : Nat
  col : Nat
deriving DecidableEq, Repr

/-- A lexed token: literal text (surrounding quote characters preserved
verbatim) plus its source position. -/
structure Token where
  lexeme : String
  pos : Pos
deriving DecidableEq, Repr

/-- The single-quote character as a string, used to build the quoted
lexeme literals that the analyzer compares against. -/
def sq : String := String.mk [Char.ofNat 39]

/-- The lexeme of a quoted boolean-true literal. -/
def lockTrueLit : String := sq ++ "true" ++ sq

/-- The lexeme of a quoted boolean-false literal. -/
def lockFalseLit : String := sq ++ "false" ++ sq

/-- `net.IP`, modelled as its byte contents. -/
abbrev IP := List Nat

/-- `net.TCPAddr`: an optional IP (Go allows a nil IP field) plus a
port, a Go `int`. -/
structure TCPAddr where
  ip : Option IP
  port : Int
deriving DecidableEq, Repr

/-- A Go `error` value as the analyzer produces it: the message text,
the position it was decorated with by `semErrf` (or `none` when the
error was built without position decoration), and whether it was
wrapped in the `ErrBadTarget` struct. -/
structure SemError where
  pos : Option Pos
  msg : String
  badTarget : Bool
deriving DecidableEq, Repr

/-- Outcome of a Go call returning `(value, error)` where the code may
additionally panic: `ok v`, `err e`, or `fatal m` (panic / slice fault). -/
inductive SemResult (α : Type) where
  | ok : α → SemResult α
  | err : SemError → SemResult α
  | fatal : String → SemResult α
deriving DecidableEq, Repr

/-- The Go standard-library collaborators called by `net_help.go`.
They are outside this repository, so they are parameters of the
embedding; every theorem below holds for an arbitrary oracle. -/
structure NetOracle where
  splitHostPort : String → Except String (String × String)
  parseIP : String → Option IP
  lookupPort : String → String → Except String Int

/-- Loop of `dtoi` from `net_help.go`: consume decimal digits starting
at index `i`, accumulating `n`; return `(0, i, false)` when the
accumulator reaches the `big = 0xFFFFFF` bound, and on exit return
`(0, i, false)` if no digit was consumed (`i = i0`), else `(n, i, true)`. -/
def dtoiGo : List Char → Nat → Nat → Nat → Nat × Nat × Bool
  | [], i, n, i0 => if i = i0 then (0, i, false) else (n, i, true)
  | c :: rest, i, n, i0 =>
    if '0' ≤ c ∧ c ≤ '9' then
      if n * 10 + (c.toNat - 48) ≥ 0xFFFFFF then (0, i, false)
      else dtoiGo rest (i + 1) (n * 10 + (c.toNat - 48)) i0
    else if i = i0 then (0, i, false) else (n, i, true)

/-- `dtoi(s, i0)` from `net_help.go`: decimal-to-integer starting at
`s[i0]`, returning `(number, new offset, success)`. -/
def dtoi (s : String) (i0 : Nat) : Nat × Nat × Bool :=
  dtoiGo (s.data.drop i0) i0 0 i0

/-- `strconv.ParseUint(s, 10, 64)`: succeeds exactly when `s` is a
non-empty all-digit string whose value fits in 64 bits.  (The exact
Go error message wording is abbreviated; no property depends on it.) -/
def parseUint64 (s : String) : Except String Nat :=
  if s.data = [] then .error "invalid syntax"
  else if s.data.all (fun c => decide ('0' ≤ c ∧ c ≤ '9')) then
    let n := s.data.foldl (fun acc c => acc * 10 + (c.toNat - 48)) 0
    if n < 2 ^ 64 then .ok n else .error "value out of range"
  else .error "invalid syntax"

/-- The host block of `hostPortToAddr` (`net_help.go` lines 48-55): an
empty host leaves the IP nil; a non-empty host must parse as a literal
IP, else `Invalid IP passed` — no name resolution exists in this code. -/
def addrOfHost (env : NetOracle) (host : String) : SemResult (Option IP) :=
  if host = "" then .ok none
  else
    match env.parseIP host with
    | none => .err ⟨none, "Invalid IP passed", false⟩
    | some ip => .ok (some ip)

/-- The port block of `hostPortToAddr` (`net_help.go` lines 57-63):
strict `dtoi` parsing over the whole token first, falling back to
`net.LookupPort` when `dtoi` fails or does not consume every character. -/
def portOfToken (env : NetOracle) (network port : String) : SemResult Int :=
  if (dtoi port 0).2.2 = false ∨ (dtoi port 0).2.1 ≠ port.data.length then
    match env.lookupPort network port with
    | .error m => .err ⟨none, m, false⟩
    | .ok p => .ok p
  else .ok ((dtoi port 0).1 : Int)

/-- `hostPortToAddr(network, hostport)` from `net_help.go`: split into
host and port, run the host block, run the port block, and require the
final port to lie in `[0, 0xFFFF]`.  The Go body is a single function;
its two sequential blocks are the named steps above. -/
def hostPortToAddr (env : NetOracle) (network hostport : String) : SemResult TCPAddr :=
  match env.splitHostPort hostport with
  | .error m => .err ⟨none, m, false⟩
  | .ok (host, port) =>
    match addrOfHost env host with
    | .err e => .err e
    | .fatal m => .fatal m
    | .ok addr =>
      match portOfToken env network port with
      | .err e => .err e
      | .fatal m => .fatal m
      | .ok p =>
        if p < 0 ∨ p > 0xFFFF then
          .err ⟨none, "address " ++ port ++ ": invalid port", false⟩
        else .ok ⟨addr, p⟩

/-- Parser output `TargetAllSpecSyntax` (renamed `…Syn` here): the
bulk target, carrying only its source anchor. -/
structure TargetAllSpecSyn where
  pos : Pos
deriving DecidableEq, Repr

/-- Parser output `TargetOneSpecSyntax`: a by-name target, carrying
its anchor and the name token `What`. -/
structure TargetOneSpecSyn where
  pos : Pos
  what : Token
deriving DecidableEq, Repr

/-- Parser output `TargetOcnSpecSyntax`: a versioned target.  The
parser is outside the sources; per the specification (§6) a versioned
target spec carries a token for the name and a token for the version
(`Ocn`). -/
structure TargetOcnSpecSyn where
  pos : Pos
  what : Token
  ocn : Token
deriving DecidableEq, Repr

/-- The union of target-spec types that `req.Spec` ranges over. -/
inductive TargetSpecSyn where
  | all : TargetAllSpecSyn → TargetSpecSyn
  | one : TargetOneSpecSyn → TargetSpecSyn
  | ocn : TargetOcnSpecSyn → TargetSpecSyn
deriving DecidableEq, Repr

/-- `req.Spec.Blame().Pos`. -/
def TargetSpecSyn.blamePos : TargetSpecSyn → Pos
  | .all t => t.pos
  | .one t => t.pos
  | .ocn t => t.pos

/-- What Go's `%T` prints for a target-spec value. -/
def TargetSpecSyn.typeName : TargetSpecSyn → String
  | .all _ => "*dogconf.TargetAllSpecSyntax"
  | .one _ => "*dogconf.TargetOneSpecSyntax"
  | .ocn _ => "*dogconf.TargetOcnSpecSyntax"

/-- Parser output `PatchActionSyntax`: anchor plus the patch property
mapping, as its list of entries in iteration order. -/
structure PatchActionSyn where
  pos : Pos
  patchProps : List (Token × Token)
deriving DecidableEq, Repr

/-- Parser output `CreateActionSyntax`. -/
structure CreateActionSyn where
  pos : Pos
  createProps : List (Token × Token)
deriving DecidableEq, Repr

/-- Parser output `GetActionSyntax` (no properties). -/
structure GetActionSyn where
  pos : Pos
deriving DecidableEq, Repr

/-- Parser output `DeleteActionSyntax` (no properties). -/
structure DeleteActionSyn where
  pos : Pos
deriving DecidableEq, Repr

/-- The closed union of action types that `req.Action` ranges over. -/
inductive ActionSyn where
  | patch : PatchActionSyn → ActionSyn
  | create : CreateActionSyn → ActionSyn
  | get : GetActionSyn → ActionSyn
  | delete : DeleteActionSyn → ActionSyn
deriving DecidableEq, Repr

/-- Parser output `RequestSyntax`: an action plus a target spec. -/
structure RequestSyn where
  action : ActionSyn
  spec : TargetSpecSyn
deriving DecidableEq, Repr

/-- Semantic target `TargetAll` from `sem_types.go`. -/
structure TargetAll where
  pos : Pos
deriving DecidableEq, Repr

/-- Semantic target `TargetOne` from `sem_types.go`: a record name,
race-prone since no version is checked. -/
structure TargetOne where
  pos : Pos
  what : String
deriving DecidableEq, Repr

/-- Semantic target `TargetOcn` from `sem_types.go`: embeds a
`TargetOne` and adds the numeric OCN (`uint64`, hence a `Nat` that
`parseUint64` guarantees below `2^64`). -/
structure TargetOcn where
  pos : Pos
  targetOne : TargetOne
  ocn : Nat
deriving DecidableEq, Repr

/-- The `Target` union from `sem_types.go`. -/
inductive Target where
  | all : TargetAll → Target
  | one : TargetOne → Target
  | ocn : TargetOcn → Target
deriving DecidableEq, Repr

/-- `AttrChange` from `sem_types.go`.  Each changeable field pairs a
`…Blame` marker (the value token; `none` = not requested) with the
semantic value; defaults are the Go zero values. -/
structure AttrChange where
  addrBlame : Option Token := none
  addr : Option TCPAddr := none
  dbnameInBlame : Option Token := none
  dbnameIn : String := ""
  dbnameRewrittenBlame : Option Token := none
  dbnameRewritten : String := ""
  lockBlame : Option Token := none
  lock : Bool := false
deriving DecidableEq, Repr

/-- `PatchDirective` from `sem_types.go`: blame anchor (the action),
`TargetOcn`, and the change. -/
structure PatchDirective where
  pos : Pos
  target : TargetOcn
  change : AttrChange
deriving DecidableEq, Repr

/-- `CreateDirective` from `sem_types.go`. -/
structure CreateDirective where
  pos : Pos
  target : TargetOne
  change : AttrChange
deriving DecidableEq, Repr

/-- `DeleteDirective` from `sem_types.go`: just a target. -/
structure DeleteDirective where
  target : Target
deriving DecidableEq, Repr

/-- `GetDirective` from `sem_types.go`: just a target (`all` or `one`
are the only valid shapes). -/
structure GetDirective where
  target : Target
deriving DecidableEq, Repr

/-- The `Directive` union from `sem_types.go`. -/
inductive Directive where
  | patch : PatchDirective → Directive
  | create : CreateDirective → Directive
  | get : GetDirective → Directive
  | delete : DeleteDirective → Directive
deriving DecidableEq, Repr

/-- `semErrf`: decorate an error message with the blamed token's
position (`"%s: %s"` against `blam.Blame().Pos`). -/
def semErrf (p : Pos) (msg : String) : SemError := ⟨some p, msg, false⟩

/-- A `semErrf`-decorated error additionally wrapped in the
`ErrBadTarget` struct. -/
def errBadTarget (p : Pos) (msg : String) : SemError := ⟨some p, msg, true⟩

/-- One iteration of the `initAttrChange` loop from `sem.go`: handle a
single `name.Lexeme` / value pair.  The `addr` case strips the single
surrounding quote characters (`value.Lexeme[1 : len-1]`, a slice fault
when the lexeme is shorter than 2) and delegates to `hostPortToAddr`;
the `lock` case compares the full quoted lexeme; an unrecognized field
name is a Go panic. -/
def procProp (env : NetOracle) (change : AttrChange) (name value : Token) :
    SemResult AttrChange :=
  match name.lexeme with
  | "addr" =>
    if value.lexeme.data.length < 2 then .fatal "slice bounds out of range"
    else
      match hostPortToAddr env "tcp"
          (String.mk (value.lexeme.data.drop 1).dropLast) with
      | .err e => .err e
      | .fatal m => .fatal m
      | .ok a => .ok { change with addr := some a, addrBlame := some value }
  | "dbnameIn" =>
    .ok { change with dbnameIn := value.lexeme, dbnameInBlame := some value }
  | "dbnameRewritten" =>
    .ok { change with
          dbnameRewritten := value.lexeme
          dbnameRewrittenBlame := some value }
  | "lock" =>
    if value.lexeme = lockTrueLit then
      .ok { change with lock := true, lockBlame := some value }
    else if value.lexeme = lockFalseLit then
      .ok { change with lock := false, lockBlame := some value }
    else
      .err ⟨none,
        "Could not recognize lock literal " ++ value.lexeme ++
          ", choose " ++ lockTrueLit ++ " or " ++ lockFalseLit, false⟩
  | _ => .fatal ("Unhandleable token: " ++ name.lexeme)

/-- `initAttrChange` from `sem.go`: fold `procProp` over the property
map's entries in iteration order, stopping at the first error. -/
def initAttrChange (env : NetOracle) (change : AttrChange) :
    List (Token × Token) → SemResult AttrChange
  | [] => .ok change
  | (n, v) :: rest =>
    match procProp env change n v with
    | .ok c => initAttrChange env c rest
    | .err e => .err e
    | .fatal m => .fatal m

/-- `newPatchDirective` from `sem.go`.  Note the source line
`tOcn.TargetOne = TargetOne{ocnSpec, ocnSpec.Ocn.Lexeme}`: the
embedded `TargetOne`'s `What` is set from the OCN token's lexeme. -/
def newPatchDirective (env : NetOracle) (ocnSpec : TargetOcnSpecSyn)
    (ocnInt : Nat) (a : PatchActionSyn) : SemResult (Option Directive) :=
  match initAttrChange env {} a.patchProps with
  | .err e => .err e
  | .fatal m => .fatal m
  | .ok change =>
    .ok (some (.patch
      { pos := a.pos
        target := { pos := ocnSpec.pos
                    targetOne := { pos := ocnSpec.pos, what := ocnSpec.ocn.lexeme }
                    ocn := ocnInt }
        change := change }))

/-- `analyzePatch` from `sem.go`: only an OCN-augmented target is
accepted; its OCN lexeme must parse as an unsigned 64-bit integer. -/
def analyzePatch (env : NetOracle) (req : RequestSyn) (a : PatchActionSyn) :
    SemResult (Option Directive) :=
  match req.spec with
  | .ocn ocnSpec =>
    match parseUint64 ocnSpec.ocn.lexeme with
    | .error m => .err (semErrf ocnSpec.ocn.pos ("Could not parse OCN, " ++ m))
    | .ok n => newPatchDirective env ocnSpec n a
  | other =>
    .err (errBadTarget other.blamePos
      ("Incorrect target type: expected TargetOcnSpecSyntax, got " ++
        other.typeName))

/-- `newCreateDirective` from `sem.go` (fuller revision). -/
def newCreateDirective (env : NetOracle) (spec : TargetOneSpecSyn)
    (a : CreateActionSyn) : SemResult (Option Directive) :=
  match initAttrChange env {} a.createProps with
  | .err e => .err e
  | .fatal m => .fatal m
  | .ok change =>
    .ok (some (.create
      { pos := a.pos
        target := { pos := spec.pos, what := spec.what.lexeme }
        change := change }))

/-- `analyzeCreate` from `sem.go` (fuller revision): only a `One`
target is accepted.  The rejection message is kept verbatim from the
source, which says `expected TargetOcnSpecSyntax`. -/
def analyzeCreate (env : NetOracle) (req : RequestSyn) (a : CreateActionSyn) :
    SemResult (Option Directive) :=
  match req.spec with
  | .one oneSpec => newCreateDirective env oneSpec a
  | other =>
    .err (errBadTarget other.blamePos
      ("Incorrect target type: expected TargetOcnSpecSyntax, got " ++
        other.typeName))

/-- `analyzeGet` from `sem.go` (fuller revision): `all` and `one`
targets are accepted, a versioned target is rejected. -/
def analyzeGet (_env : NetOracle) (req : RequestSyn) (_a : GetActionSyn) :
    SemResult (Option Directive) :=
  match req.spec with
  | .all _ => .ok (some (.get { target := .all { pos := req.spec.blamePos } }))
  | .one t =>
    .ok (some (.get { target := .one { pos := t.what.pos, what := t.what.lexeme } }))
  | other =>
    .err (errBadTarget other.blamePos
      ("Incorrect target type: expected TargetOneSpecSyntax or " ++
        "TargetAllSpecSyntax, got " ++ other.typeName))

/-- `Analyze` from `sem.go` (fuller revision): dispatch on the action
type.  The delete arm is a stub in the source (`analyzeDelete` is
commented out) returning `nil, nil`, modelled as `.ok none`.  The
action union is closed, so the source's trailing panic branch is
unreachable and has no counterpart here. -/
def Analyze (env : NetOracle) (req : RequestSyn) : SemResult (Option Directive) :=
  match req.action with
  | .patch a => analyzePatch env req a
  | .create a => analyzeCreate env req a
  | .get a => analyzeGet env req a
  | .delete _ => .ok none

/-- The property mapping that `Analyze` consults for a request's
action, if any. -/
def reqProps (req : RequestSyn) : Option (List (Token × Token)) :=
  match req.action with
  | .patch a => some a.patchProps
  | .create a => some a.createProps
  | _ => none

/-- The same request with its action's property mapping enumerated in
a (possibly) different order. -/
def withProps (req : RequestSyn) (l : List (Token × Token)) : RequestSyn :=
  match req.action with
  | .patch a => { req with action := .patch { a with patchProps := l } }
  | .create a => { req with action := .create { a with createProps := l } }
  | _ => req

/-! ## A concrete network oracle for closed evaluations

The theorems below are stated over an arbitrary `NetOracle`; the
closed witnesses and counterexamples instantiate it with the following
small, honest stand-ins for the Go standard-library functions. -/

/-- Split a character list at its last colon (`none` when no colon). -/
def splitLastColonAux : List Char → Option (List Char × List Char)
  | [] => none
  | c :: rest =>
    match splitLastColonAux rest with
    | some (h, p) => some (c :: h, p)
    | none => if c = ':' then some ([], rest) else none

/-- A concrete stand-in for `net.SplitHostPort`: split at the last
colon (no bracketed-IPv6 handling; enough for the inputs used here). -/
def testSplitHostPort (s : String) : Except String (String × String) :=
  match splitLastColonAux s.data with
  | some (h, p) => .ok (String.mk h, String.mk p)
  | none => .error ("address " ++ s ++ ": missing port in address")

/-- Split a character list at every dot. -/
def splitDots : List Char → List (List Char)
  | [] => [[]]
  | c :: rest =>
    if c = '.' then [] :: splitDots rest
    else
      match splitDots rest with
      | h :: t => (c :: h) :: t
      | [] => [[c]]

/-- Decimal value of a digit list. -/
def digitsVal (l : List Char) : Nat :=
  l.foldl (fun a c => a * 10 + (c.toNat - 48)) 0

/-- A concrete stand-in for `net.ParseIP`: dotted-quad IPv4 only. -/
def testParseIP (s : String) : Option IP :=
  let parts := splitDots s.data
  if parts.length = 4 ∧ parts.all (fun t =>
      decide (t ≠ []) &&
      t.all (fun c => decide ('0' ≤ c ∧ c ≤ '9')) &&
      decide (digitsVal t ≤ 255))
  then some (parts.map digitsVal)
  else none

/-- A concrete stand-in for `net.LookupPort`: knows only
`postgres/tcp`. -/
def testLookupPort (network service : String) : Except String Int :=
  if network = "tcp" ∧ service = "postgres" then .ok 5432
  else .error ("unknown port " ++ network ++ "/" ++ service)

/-- The oracle used by the closed witnesses and counterexamples. -/
def testEnv : NetOracle :=
  { splitHostPort := testSplitHostPort
    parseIP := testParseIP
    lookupPort := testLookupPort }

/-- Whether an analysis outcome is a returned error wrapped in
`ErrBadTarget` (such an outcome carries no directive). -/
def SemResult.isBadTargetErr : SemResult (Option Directive) → Bool
  | .err e => e.badTarget
  | _ => false

/-! ## Shared sample data for closed witnesses and counterexamples -/

/-- Sample name token `"fdr"`. -/
def nameTok : Token := ⟨"fdr", ⟨1, 10⟩⟩

/-- Sample version token `"7"`. -/
def ocnTok7 : Token := ⟨"7", ⟨1, 16⟩⟩

/-- Sample `addr` field-name token. -/
def addrNameTok : Token := ⟨"addr", ⟨1, 20⟩⟩

/-- Sample `addr` value token `'10.0.0.5:5432'` (quotes in the lexeme). -/
def addrValTok : Token := ⟨sq ++ "10.0.0.5:5432" ++ sq, ⟨1, 27⟩⟩

/-- Sample `lock` field-name token. -/
def lockNameTok : Token := ⟨"lock", ⟨2, 5⟩⟩

/-- Sample `lock` value token `'yes'` (an unrecognized literal). -/
def lockYesTok : Token := ⟨sq ++ "yes" ++ sq, ⟨2, 11⟩⟩

/-- Sample `lock` value token `'true'`. -/
def lockTrueTok : Token := ⟨lockTrueLit, ⟨2, 11⟩⟩

/-- A Patch request against the versioned target `fdr@7` with the
given property mapping. -/
def patchOcnReq (props : List (Token × Token)) : RequestSyn :=
  { action := .patch { pos := ⟨1, 1⟩, patchProps := props }
    spec := .ocn { pos := ⟨1, 8⟩, what := nameTok, ocn := ocnTok7 } }

/-- A Create request given the (illegal for Create) `all` target. -/
def createAllReq : RequestSyn :=
  { action := .create { pos := ⟨3, 1⟩, createProps := [] }
    spec := .all { pos := ⟨3, 8⟩ } }

/-- A Delete request against a `one` target. -/
def deleteOneReq : RequestSyn :=
  { action := .delete { pos := ⟨4, 1⟩ }
    spec := .one { pos := ⟨4, 8⟩, what := nameTok } }

/-- A Delete request against the `all` target. -/
def deleteAllReq : RequestSyn :=
  { action := .delete { pos := ⟨4, 1⟩ }
    spec := .all { pos := ⟨4, 8⟩ } }

/-- A Get request given the (illegal for Get) versioned target. -/
def getOcnReq : RequestSyn :=
  { action := .get { pos := ⟨6, 1⟩ }
    spec := .ocn { pos := ⟨6, 8⟩, what := nameTok, ocn := ocnTok7 } }

/-! ## Claims -/

/-- C1: for a Patch request whose target shape is `Ocn` and whose
version lexeme parses as an unsigned 64-bit integer, `Analyze` does
return a Patch directive whose `Ocn` field equals the parsed integer
(here `7`) — but, evaluating the specification's own end-to-end
scenario (`name: "fdr", version: "7", addr: '10.0.0.5:5432'`), the
directive's `What` field is `"7"`, the version token's lexeme, not the
target name's literal text `"fdr"`: `newPatchDirective` builds
`TargetOne{ocnSpec, ocnSpec.Ocn.Lexeme}`.  This contradicts the
documented invariant that `TargetOcn` contains a `TargetOne` naming
the record, so the claim is right and the code has a slip. -/
theorem c1_patch_eval :
    Analyze testEnv (patchOcnReq [(addrNameTok, addrValTok)]) =
      .ok (some (.patch
        { pos := ⟨1, 1⟩
          target := { pos := ⟨1, 8⟩
                      targetOne := { pos := ⟨1, 8⟩, what := "7" }
                      ocn := 7 }
          change := { addrBlame := some addrValTok
                      addr := some ⟨some [10, 0, 0, 5], 5432⟩ } })) ∧
    nameTok.lexeme ≠ "7" :=
  ⟨by decide, by decide⟩

/-- C2: for every Create request whose target shape is `All` or
`Ocn`, and every Get request whose target shape is `Ocn`, `Analyze`
returns an `ErrBadTarget` error and no directive. -/
theorem c2_illegal_target_shapes (env : NetOracle) (req : RequestSyn) :
    ((∃ a, req.action = .create a) →
      ((∃ t, req.spec = .all t) ∨ (∃ t, req.spec = .ocn t)) →
      (Analyze env req).isBadTargetErr = true) ∧
    ((∃ a, req.action = .get a) →
      (∃ t, req.spec = .ocn t) →
      (Analyze env req).isBadTargetErr = true) := by
  constructor
  · rintro ⟨a, ha⟩ (⟨t, ht⟩ | ⟨t, ht⟩) <;>
      simp [Analyze, ha, analyzeCreate, ht, errBadTarget, SemResult.isBadTargetErr]
  · rintro ⟨a, ha⟩ ⟨t, ht⟩
    simp [Analyze, ha, analyzeGet, ht, errBadTarget, SemResult.isBadTargetErr]

/-- Witness for C2 at a concrete input: a Create request with the
`all` target is rejected as a bad target. -/
theorem c2_illegal_target_shapes_witness :
    (Analyze testEnv createAllReq).isBadTargetErr = true :=
  (c2_illegal_target_shapes testEnv createAllReq).1 ⟨_, rfl⟩ (Or.inl ⟨_, rfl⟩)

/-- C3 counterexample: `Analyze` on a concrete Delete request (target
shape `One`) returns `nil, nil` — no `Delete` directive is constructed
(the source's `analyzeDelete` call is commented out), contradicting
the claim that a fully well-formed Delete directive is returned. -/
theorem c3_delete_counterexample :
    Analyze testEnv deleteOneReq = .ok none := by decide

/-- C3 amended: for every Delete request, with any of the three target
shapes, `Analyze` returns no directive and no error (the delete arm is
an unimplemented stub returning `nil, nil`). -/
theorem c3_delete_stub (env : NetOracle) (req : RequestSyn)
    (a : DeleteActionSyn) (h : req.action = .delete a) :
    Analyze env req = .ok none := by
  unfold Analyze
  rw [h]

/-- Witness for the amended C3 at a concrete input: a Delete request
against the `all` target. -/
theorem c3_delete_stub_witness :
    deleteAllReq.action = .delete ⟨⟨4, 1⟩⟩ ∧
      Analyze testEnv deleteAllReq = .ok none :=
  ⟨rfl, c3_delete_stub testEnv deleteAllReq ⟨⟨4, 1⟩⟩ rfl⟩

/-- C8: evaluating the analyzer on a Create request with an `all`
target shows the rejection message names `TargetOcnSpecSyntax` as the
expected shape — not the `One` shape that Create actually accepts (the
message was copied from the Patch arm), so the claim is right and the
code has a slip. -/
theorem c8_create_message_eval :
    Analyze testEnv createAllReq =
      .err ⟨some ⟨3, 8⟩,
        "Incorrect target type: expected TargetOcnSpecSyntax, " ++
          "got *dogconf.TargetAllSpecSyntax",
        true⟩ := by decide

/-- Classification of a successful `hostPortToAddr` run: the split
succeeded, the host block yielded the (possibly nil) IP, the port
block yielded the port, and the final range check passed. -/
theorem hostPortToAddr_ok {env : NetOracle} {nw hp : String} {a : TCPAddr}
    (h : hostPortToAddr env nw hp = .ok a) :
    ∃ host port, env.splitHostPort hp = .ok (host, port) ∧
      addrOfHost env host = .ok a.ip ∧
      portOfToken env nw port = .ok a.port ∧
      0 ≤ a.port ∧ a.port ≤ 0xFFFF := by
  unfold hostPortToAddr at h
  split at h
  · exact SemResult.noConfusion h
  rename_i host port heq
  refine ⟨host, port, heq, ?_⟩
  split at h <;> try exact SemResult.noConfusion h
  rename_i addr ha
  split at h <;> try exact SemResult.noConfusion h
  rename_i p hq
  split at h
  · exact SemResult.noConfusion h
  rename_i hr
  push_neg at hr
  cases h
  exact ⟨ha, hq, hr.1, hr.2⟩

/-- C6: whenever the split yields a non-empty host that does not parse
as a literal IP address, `hostPortToAddr` returns the `Invalid IP
passed` error and never a resolved endpoint.  No name-resolution
function exists anywhere in this code: the result does not depend on
any resolver, only on `parseIP` failing. -/
theorem c6_hostname_rejected (env : NetOracle) (network hostport host port : String)
    (hsplit : env.splitHostPort hostport = .ok (host, port))
    (hne : host ≠ "")
    (hip : env.parseIP host = none) :
    hostPortToAddr env network hostport = .err ⟨none, "Invalid IP passed", false⟩ := by
  have ha : addrOfHost env host = .err ⟨none, "Invalid IP passed", false⟩ := by
    unfold addrOfHost
    rw [if_neg hne, hip]
  unfold hostPortToAddr
  rw [hsplit]
  simp [ha]

/-- Witness for C6 at a concrete input: the hostname
`db.example.com:5432` is rejected. -/
theorem c6_hostname_rejected_witness :
    hostPortToAddr testEnv "tcp" "db.example.com:5432" =
      .err ⟨none, "Invalid IP passed", false⟩ :=
  c6_hostname_rejected testEnv "tcp" "db.example.com:5432" "db.example.com" "5432"
    (by rfl) (by decide) (by rfl)

/-- A full-consumption success of the `dtoi` loop means every scanned
character was a digit and the accumulator stayed below the `big`
bound; it also never happens on an empty scan. -/
theorem dtoiGo_full (l : List Char) : ∀ i n i0 p, n < 0xFFFFFF →
    dtoiGo l i n i0 = (p, i + l.length, true) →
    (∀ c ∈ l, '0' ≤ c ∧ c ≤ '9') ∧ p < 0xFFFFFF ∧ (l = [] → i ≠ i0) := by
  induction l with
  | nil =>
    intro i n i0 p hn h
    unfold dtoiGo at h
    by_cases hi : i = i0
    · rw [if_pos hi] at h
      injection h with h1 h2
      injection h2 with h3 h4
      exact absurd h4 (by simp)
    · rw [if_neg hi] at h
      injection h with h1 h2
      exact ⟨by simp, h1 ▸ hn, fun _ => hi⟩
  | cons c rest ih =>
    intro i n i0 p hn h
    unfold dtoiGo at h
    by_cases hc : '0' ≤ c ∧ c ≤ '9'
    · rw [if_pos hc] at h
      by_cases hm : n * 10 + (c.toNat - 48) ≥ 0xFFFFFF
      · rw [if_pos hm] at h
        injection h with h1 h2
        injection h2 with h3 h4
        exact absurd h4 (by simp)
      · rw [if_neg hm] at h
        have hlen : i + (c :: rest).length = (i + 1) + rest.length := by
          simp [List.length_cons]
          omega
        rw [hlen] at h
        obtain ⟨hd, hp, -⟩ := ih (i + 1) _ i0 p (by omega) h
        refine ⟨?_, hp, by simp⟩
        intro x hx
        rw [List.mem_cons] at hx
        rcases hx with rfl | hx
        · exact hc
        · exact hd x hx
    · rw [if_neg hc] at h
      by_cases hi : i = i0
      · rw [if_pos hi] at h
        injection h with h1 h2
        injection h2 with h3 h4
        exact absurd h4 (by simp)
      · rw [if_neg hi] at h
        injection h with h1 h2
        injection h2 with h3 h4
        rw [List.length_cons] at h3
        omega

/-- `dtoi s 0` succeeding with full consumption means `s` is a
non-empty all-digit string whose value stayed below the `big` bound —
the strict decimal parse of the port token. -/
theorem dtoi_full {s : String} {p : Nat} (h : dtoi s 0 = (p, s.data.length, true)) :
    s.data ≠ [] ∧ (∀ c ∈ s.data, '0' ≤ c ∧ c ≤ '9') ∧ p < 0xFFFFFF := by
  unfold dtoi at h
  rw [List.drop_zero] at h
  have hmain := dtoiGo_full s.data 0 0 0 p (by norm_num) (by simpa using h)
  exact ⟨fun hnil => (hmain.2.2 hnil) rfl, hmain.1, hmain.2.1⟩

/-- C7: the port token is resolved by strict decimal parsing first
(full-consumption `dtoi` success, which forces an all-digit non-empty
token below the overflow bound, and uses the parsed value without
consulting the service-name oracle), falls back to `net.LookupPort`
when strict parsing fails or stops short, fails when the fallback
fails, and every candidate port — from either path — is subjected to
the `[0, 0xFFFF]` range check, so every successful resolution's port
lies in that range. -/
theorem c7_port_resolution (env : NetOracle) (nw hostport host port : String)
    (addr : Option IP)
    (hsplit : env.splitHostPort hostport = .ok (host, port))
    (haddr : addrOfHost env host = .ok addr) :
    (∀ p, dtoi port 0 = (p, port.data.length, true) →
      port.data ≠ [] ∧ (∀ c ∈ port.data, '0' ≤ c ∧ c ≤ '9') ∧ p < 0xFFFFFF) ∧
    (∀ p, dtoi port 0 = (p, port.data.length, true) →
      hostPortToAddr env nw hostport =
        if (p : Int) < 0 ∨ (p : Int) > 0xFFFF then
          .err ⟨none, "address " ++ port ++ ": invalid port", false⟩
        else .ok ⟨addr, (p : Int)⟩) ∧
    ((dtoi port 0).2.2 = false ∨ (dtoi port 0).2.1 ≠ port.data.length →
      (∀ m, env.lookupPort nw port = .error m →
        hostPortToAddr env nw hostport = .err ⟨none, m, false⟩) ∧
      (∀ q, env.lookupPort nw port = .ok q →
        hostPortToAddr env nw hostport =
          if q < 0 ∨ q > 0xFFFF then
            .err ⟨none, "address " ++ port ++ ": invalid port", false⟩
          else .ok ⟨addr, q⟩)) ∧
    (∀ a, hostPortToAddr env nw hostport = .ok a → 0 ≤ a.port ∧ a.port ≤ 0xFFFF) := by
  refine ⟨?_, ?_, ?_, ?_⟩
  · intro p hp
    exact dtoi_full hp
  · intro p hp
    have hq : portOfToken env nw port = .ok (p : Int) := by
      unfold portOfToken
      rw [hp]
      simp
    unfold hostPortToAddr
    rw [hsplit]
    simp [haddr, hq]
  · intro hcond
    constructor
    · intro m hlk
      have hq : portOfToken env nw port = .err ⟨none, m, false⟩ := by
        unfold portOfToken
        rw [if_pos hcond, hlk]
      unfold hostPortToAddr
      rw [hsplit]
      simp [haddr, hq]
    · intro q hlk
      have hq : portOfToken env nw port = .ok q := by
        unfold portOfToken
        rw [if_pos hcond, hlk]
      unfold hostPortToAddr
      rw [hsplit]
      simp [haddr, hq]
  · intro a ha
    obtain ⟨host', port', -, -, -, h1, h2⟩ := hostPortToAddr_ok ha
    exact ⟨h1, h2⟩

/-- Witness for C7 at a concrete input: `10.0.0.5:5432` strict-parses
its port and resolves successfully. -/
theorem c7_port_resolution_witness :
    hostPortToAddr testEnv "tcp" "10.0.0.5:5432" =
      .ok ⟨some [10, 0, 0, 5], (5432 : Int)⟩ := by
  have h := (c7_port_resolution testEnv "tcp" "10.0.0.5:5432" "10.0.0.5" "5432"
    (some [10, 0, 0, 5]) (by rfl) (by rfl)).2.1 5432 (by decide)
  simpa using h

/-- C10: when the split yields an empty host (e.g. `":5432"`), the
literal-IP check is skipped entirely — every success has a nil IP, for
every `parseIP` oracle — and a valid port yields a successful endpoint
with `ip = none`. -/
theorem c10_empty_host (env : NetOracle) (network hostport port : String)
    (hsplit : env.splitHostPort hostport = .ok ("", port)) :
    (∀ a, hostPortToAddr env network hostport = .ok a → a.ip = none) ∧
    (∀ p, dtoi port 0 = (p, port.data.length, true) → (p : Int) ≤ 0xFFFF →
      hostPortToAddr env network hostport = .ok ⟨none, (p : Int)⟩) := by
  constructor
  · intro a ha
    obtain ⟨host, port', hs, haddr, -⟩ := hostPortToAddr_ok ha
    rw [hsplit] at hs
    cases hs
    unfold addrOfHost at haddr
    rw [if_pos rfl] at haddr
    injection haddr with h
    exact h.symm
  · intro p hp hle
    have haddr : addrOfHost env "" = .ok none := by rw [addrOfHost, if_pos rfl]
    have hport : portOfToken env network port = .ok (p : Int) := by
      unfold portOfToken
      rw [hp]
      simp
    have hno : ¬((p : Int) < 0 ∨ (p : Int) > 0xFFFF) := by omega
    unfold hostPortToAddr
    rw [hsplit]
    simp [haddr, hport, hno]
    omega

/-- Witness for C10 at a concrete input: `":5432"` resolves to an
endpoint with no IP and port 5432. -/
theorem c10_empty_host_witness :
    hostPortToAddr testEnv "tcp" ":5432" = .ok ⟨none, (5432 : Int)⟩ :=
  (c10_empty_host testEnv "tcp" ":5432" "5432" (by rfl)).2 5432 (by decide) (by decide)

/-- C4 counterexample: on a Patch request whose `lock` property is the
unrecognized literal `'yes'`, `Analyze` returns the lock-literal error
with no source position: `initAttrChange` builds it with a bare
`fmt.Errorf`, never passing it through `semErrf`.  So not every error
`Analyze` returns carries a position. -/
theorem c4_counterexample :
    Analyze testEnv (patchOcnReq [(lockNameTok, lockYesTok)]) =
      .err ⟨none,
        "Could not recognize lock literal " ++ sq ++ "yes" ++ sq ++
          ", choose " ++ sq ++ "true" ++ sq ++ " or " ++ sq ++ "false" ++ sq,
        false⟩ := by decide

/-- C4 amended: every error `Analyze` returns either carries a source
position (all analyzer-level errors do, being built through `semErrf`)
or is a field-level error propagated unchanged from the Attribute
Change Builder (`initAttrChange`), and those — such as the
lock-literal error — carry none. -/
theorem c4_error_position (env : NetOracle) (req : RequestSyn) (e : SemError)
    (h : Analyze env req = .err e) :
    e.pos.isSome = true ∨
      ∃ props, reqProps req = some props ∧ initAttrChange env {} props = .err e := by
  obtain ⟨act, spec⟩ := req
  cases act with
  | patch a =>
    cases spec with
    | ocn t =>
      simp only [Analyze, analyzePatch] at h
      split at h
      · injection h with h1
        left
        rw [← h1]
        rfl
      · unfold newPatchDirective at h
        split at h
        · rename_i e' hinit
          injection h with h1
          right
          exact ⟨a.patchProps, rfl, h1 ▸ hinit⟩
        · exact SemResult.noConfusion h
        · exact SemResult.noConfusion h
    | all t =>
      simp only [Analyze, analyzePatch] at h
      injection h with h1
      left
      rw [← h1]
      rfl
    | one t =>
      simp only [Analyze, analyzePatch] at h
      injection h with h1
      left
      rw [← h1]
      rfl
  | create a =>
    cases spec with
    | one t =>
      simp only [Analyze, analyzeCreate] at h
      unfold newCreateDirective at h
      split at h
      · rename_i e' hinit
        injection h with h1
        right
        exact ⟨a.createProps, rfl, h1 ▸ hinit⟩
      · exact SemResult.noConfusion h
      · exact SemResult.noConfusion h
    | all t =>
      simp only [Analyze, analyzeCreate] at h
      injection h with h1
      left
      rw [← h1]
      rfl
    | ocn t =>
      simp only [Analyze, analyzeCreate] at h
      injection h with h1
      left
      rw [← h1]
      rfl
  | get a =>
    cases spec with
    | all t =>
      simp only [Analyze, analyzeGet] at h
      exact SemResult.noConfusion h
    | one t =>
      simp only [Analyze, analyzeGet] at h
      exact SemResult.noConfusion h
    | ocn t =>
      simp only [Analyze, analyzeGet] at h
      injection h with h1
      left
      rw [← h1]
      rfl
  | delete a =>
    simp only [Analyze] at h
    exact SemResult.noConfusion h

/-- Witness for the amended C4 at a concrete input: the bad-target
error for a Create request with the `all` target carries a position. -/
theorem c4_error_position_witness :
    (errBadTarget ⟨3, 8⟩ ("Incorrect target type: expected TargetOcnSpecSyntax, " ++
        "got *dogconf.TargetAllSpecSyntax")).pos.isSome = true ∨
      ∃ props, reqProps createAllReq = some props ∧
        initAttrChange testEnv {} props =
          .err (errBadTarget ⟨3, 8⟩ ("Incorrect target type: expected TargetOcnSpecSyntax, " ++
            "got *dogconf.TargetAllSpecSyntax")) :=
  c4_error_position testEnv createAllReq _ (by decide)

/-- Processing a property entry whose name is not `lock` leaves the
`Lock`/`LockBlame` fields of the change untouched. -/
theorem procProp_lock_of_ne {env : NetOracle} {a : AttrChange} {n v : Token} {a' : AttrChange}
    (hne : n.lexeme ≠ "lock") (h : procProp env a n v = .ok a') :
    a'.lock = a.lock ∧ a'.lockBlame = a.lockBlame := by
  unfold procProp at h
  split at h
  · split at h
    · exact SemResult.noConfusion h
    · split at h <;> try exact SemResult.noConfusion h
      injection h with h1
      rw [← h1]
      exact ⟨rfl, rfl⟩
  · injection h with h1
    rw [← h1]
    exact ⟨rfl, rfl⟩
  · injection h with h1
    rw [← h1]
    exact ⟨rfl, rfl⟩
  · rename_i heq
    exact absurd heq hne
  · exact SemResult.noConfusion h

/-- A successful build over a mapping with no `lock` entry leaves the
`Lock`/`LockBlame` fields at their incoming values. -/
theorem init_lock_of_none {env : NetOracle} :
    ∀ (props : List (Token × Token)) (a c : AttrChange),
    (∀ p ∈ props, p.1.lexeme ≠ "lock") →
    initAttrChange env a props = .ok c →
    c.lock = a.lock ∧ c.lockBlame = a.lockBlame := by
  intro props
  induction props with
  | nil =>
    intro a c _ h
    injection h with h1
    rw [h1]
    exact ⟨rfl, rfl⟩
  | cons p rest ih =>
    intro a c hne h
    obtain ⟨m, w⟩ := p
    unfold initAttrChange at h
    split at h <;> try exact SemResult.noConfusion h
    rename_i a1 hp
    have h1 := procProp_lock_of_ne (hne (m, w) (List.mem_cons_self _ _)) hp
    have h2 := ih a1 c (fun q hq => hne q (List.mem_cons_of_mem _ hq)) h
    exact ⟨h2.1.trans h1.1, h2.2.trans h1.2⟩

/-- A `lock` entry whose value lexeme is exactly `'true'` sets
`Lock = true` and anchors the blame to the value token. -/
theorem procProp_lock_true {env : NetOracle} {a : AttrChange} {n v : Token}
    (hn : n.lexeme = "lock") (hv : v.lexeme = lockTrueLit) :
    procProp env a n v = .ok { a with lock := true, lockBlame := some v } := by
  unfold procProp
  rw [hn]
  simp [hv]

/-- A `lock` entry whose value lexeme is exactly `'false'` sets
`Lock = false` and anchors the blame to the value token. -/
theorem procProp_lock_false {env : NetOracle} {a : AttrChange} {n v : Token}
    (hn : n.lexeme = "lock") (hv : v.lexeme = lockFalseLit) :
    procProp env a n v = .ok { a with lock := false, lockBlame := some v } := by
  unfold procProp
  rw [hn]
  have hne : v.lexeme ≠ lockTrueLit := by
    rw [hv]
    decide
  simp [hv, hne]
  decide

/-- A `lock` entry with any other value lexeme is rejected with the
message that echoes the quoted literal. -/
theorem procProp_lock_bad {env : NetOracle} {a : AttrChange} {n v : Token}
    (hn : n.lexeme = "lock") (hv1 : v.lexeme ≠ lockTrueLit) (hv2 : v.lexeme ≠ lockFalseLit) :
    procProp env a n v =
      .err ⟨none, "Could not recognize lock literal " ++ v.lexeme ++
        ", choose " ++ lockTrueLit ++ " or " ++ lockFalseLit, false⟩ := by
  unfold procProp
  rw [hn]
  simp [hv1, hv2]

/-- If a mapping's unique `lock` entry carries the boolean literal
selected by `b`, every successful build ends with `Lock = b` anchored
to that entry's value token. -/
theorem init_lock_set {env : NetOracle} (b : Bool) :
    ∀ (props : List (Token × Token)) (a0 c : AttrChange) (n v : Token),
    props.filter (fun p => p.1.lexeme == "lock") = [(n, v)] →
    v.lexeme = (if b then lockTrueLit else lockFalseLit) →
    initAttrChange env a0 props = .ok c →
    c.lock = b ∧ c.lockBlame = some v := by
  intro props
  induction props with
  | nil =>
    intro a0 c n v huniq _ _
    simp at huniq
  | cons p rest ih =>
    intro a0 c n v huniq hv h
    obtain ⟨m, w⟩ := p
    rw [List.filter_cons] at huniq
    unfold initAttrChange at h
    by_cases hm : m.lexeme = "lock"
    · rw [if_pos (by simpa using hm)] at huniq
      rw [List.cons.injEq] at huniq
      obtain ⟨hpw, hrest⟩ := huniq
      have hmn : m = n := congrArg Prod.fst hpw
      have hwv : w = v := congrArg Prod.snd hpw
      split at h <;> try exact SemResult.noConfusion h
      rename_i a1 hp
      have hnone : ∀ q ∈ rest, q.1.lexeme ≠ "lock" := by
        intro q hq
        have := List.filter_eq_nil_iff.mp hrest q hq
        simpa using this
      have hrest2 := init_lock_of_none rest a1 c hnone h
      cases b with
      | true =>
        have hset := @procProp_lock_true env a0 m w hm (by rw [hwv, hv]; rfl)
        rw [hp] at hset
        injection hset with h1
        rw [h1] at hrest2
        simp only [] at hrest2
        exact ⟨hrest2.1, hrest2.2.trans (by rw [hwv])⟩
      | false =>
        have hset := @procProp_lock_false env a0 m w hm (by rw [hwv, hv]; rfl)
        rw [hp] at hset
        injection hset with h1
        rw [h1] at hrest2
        simp only [] at hrest2
        exact ⟨hrest2.1, hrest2.2.trans (by rw [hwv])⟩
    · rw [if_neg (by simpa using hm)] at huniq
      split at h <;> try exact SemResult.noConfusion h
      rename_i a1 hp
      exact ih a1 c n v huniq hv h

/-- A mapping containing a `lock` entry with an unrecognized literal
never builds successfully. -/
theorem init_lock_bad {env : NetOracle} :
    ∀ (props : List (Token × Token)) (a0 : AttrChange) (n v : Token),
    (n, v) ∈ props → n.lexeme = "lock" →
    v.lexeme ≠ lockTrueLit → v.lexeme ≠ lockFalseLit →
    ∀ c, initAttrChange env a0 props ≠ .ok c := by
  intro props
  induction props with
  | nil =>
    intro a0 n v hmem
    exact absurd hmem (List.not_mem_nil _)
  | cons p rest ih =>
    intro a0 n v hmem hn hv1 hv2 c h
    obtain ⟨m, w⟩ := p
    unfold initAttrChange at h
    rw [List.mem_cons] at hmem
    rcases hmem with heq | hmem
    · have hmn : m = n := (congrArg Prod.fst heq.symm)
      have hwv : w = v := (congrArg Prod.snd heq.symm)
      have hbad := @procProp_lock_bad env a0 m w (by rw [hmn]; exact hn)
        (by rw [hwv]; exact hv1) (by rw [hwv]; exact hv2)
      rw [hbad] at h
      exact SemResult.noConfusion h
    · split at h <;> try exact SemResult.noConfusion h
      rename_i a1 hp
      exact ih a1 n v hmem hn hv1 hv2 c h

/-- C5: for every property mapping whose unique `lock` entry has value
token `v`: lexeme exactly `'true'` yields `Lock = true` in any
successful build, exactly `'false'` yields `Lock = false`, and any
other lexeme makes the build fail — and on the mapping containing just
that entry, the returned field-value error's message contains the
original literal text, surrounding quotes included. -/
theorem c5_lock_semantics (env : NetOracle) (a0 : AttrChange)
    (props : List (Token × Token)) (n v : Token)
    (huniq : props.filter (fun p => p.1.lexeme == "lock") = [(n, v)]) :
    (v.lexeme = lockTrueLit → ∀ c, initAttrChange env a0 props = .ok c →
      c.lock = true ∧ c.lockBlame = some v) ∧
    (v.lexeme = lockFalseLit → ∀ c, initAttrChange env a0 props = .ok c →
      c.lock = false ∧ c.lockBlame = some v) ∧
    (v.lexeme ≠ lockTrueLit → v.lexeme ≠ lockFalseLit →
      (∀ c, initAttrChange env a0 props ≠ .ok c) ∧
      ∃ pre post, initAttrChange env a0 [(n, v)] =
        .err ⟨none, pre ++ v.lexeme ++ post, false⟩) := by
  have hmem : (n, v) ∈ props.filter (fun p => p.1.lexeme == "lock") := by
    rw [huniq]
    exact List.mem_singleton.mpr rfl
  have hn : n.lexeme = "lock" := by
    have := List.of_mem_filter hmem
    simpa using this
  refine ⟨?_, ?_, ?_⟩
  · intro hv c h
    exact init_lock_set true props a0 c n v huniq (by simpa using hv) h
  · intro hv c h
    exact init_lock_set false props a0 c n v huniq (by simpa using hv) h
  · intro hv1 hv2
    constructor
    · exact init_lock_bad props a0 n v (List.mem_of_mem_filter hmem) hn hv1 hv2
    · refine ⟨"Could not recognize lock literal ",
        ", choose " ++ lockTrueLit ++ " or " ++ lockFalseLit, ?_⟩
      have hbad := @procProp_lock_bad env a0 n v hn hv1 hv2
      unfold initAttrChange
      rw [hbad]
      simp [String.append_assoc]

/-- Witness for C5 at a concrete input: a mapping whose lock literal
is `'yes'` never builds successfully. -/
theorem c5_lock_semantics_witness :
    initAttrChange testEnv {} [(lockNameTok, lockYesTok)] ≠
      .ok ({} : AttrChange) :=
  ((c5_lock_semantics testEnv {} [(lockNameTok, lockYesTok)] lockNameTok lockYesTok
    (by decide)).2.2 (by decide) (by decide)).1 {}



/-- Full characterization of a successful property-entry step: the
name selects which field pair is written, the rest of the change is
untouched, and the write is determined by the value token alone. -/
theorem procProp_ok_char {env : NetOracle} {a : AttrChange} {n v : Token} {a' : AttrChange}
    (h : procProp env a n v = .ok a') :
    (n.lexeme = "addr" ∧ ∃ t,
      hostPortToAddr env "tcp" (String.mk (v.lexeme.data.drop 1).dropLast) = .ok t ∧
      a' = { a with addr := some t, addrBlame := some v }) ∨
    (n.lexeme = "dbnameIn" ∧
      a' = { a with dbnameIn := v.lexeme, dbnameInBlame := some v }) ∨
    (n.lexeme = "dbnameRewritten" ∧
      a' = { a with dbnameRewritten := v.lexeme, dbnameRewrittenBlame := some v }) ∨
    (n.lexeme = "lock" ∧
      a' = { a with lock := (v.lexeme == lockTrueLit), lockBlame := some v }) := by
  unfold procProp at h
  split at h
  · -- addr
    rename_i heq
    split at h
    · exact SemResult.noConfusion h
    · split at h <;> try exact SemResult.noConfusion h
      rename_i t ht
      injection h with h1
      exact Or.inl ⟨heq, t, ht, h1.symm⟩
  · rename_i heq
    injection h with h1
    exact Or.inr (Or.inl ⟨heq, h1.symm⟩)
  · rename_i heq
    injection h with h1
    exact Or.inr (Or.inr (Or.inl ⟨heq, h1.symm⟩))
  · rename_i heq
    split at h
    · rename_i hv
      injection h with h1
      refine Or.inr (Or.inr (Or.inr ⟨heq, ?_⟩))
      rw [← h1]
      have : (v.lexeme == lockTrueLit) = true := by
        rw [hv]
        exact beq_self_eq_true _
      rw [this]
    · split at h
      · rename_i hv1 hv2
        injection h with h1
        refine Or.inr (Or.inr (Or.inr ⟨heq, ?_⟩))
        rw [← h1]
        have : (v.lexeme == lockTrueLit) = false := by
          rw [beq_eq_false_iff_ne]
          exact hv1
        rw [this]
      · exact SemResult.noConfusion h
  · exact SemResult.noConfusion h



/-- The value token of the last entry with the given field name in an
enumeration order (the entry whose write survives the fold). -/
def lastNamed (nm : String) : List (Token × Token) → Option Token
  | [] => none
  | (n, v) :: rest =>
    match lastNamed nm rest with
    | some w => some w
    | none => if n.lexeme = nm then some v else none

/-- A successful build's `DbnameIn` fields are decided by the last
`dbnameIn` entry, or left at their incoming values. -/
theorem init_dbnameIn_char {env : NetOracle} :
    ∀ (props : List (Token × Token)) (a c : AttrChange),
    initAttrChange env a props = .ok c →
    (match lastNamed "dbnameIn" props with
     | some w => c.dbnameIn = w.lexeme ∧ c.dbnameInBlame = some w
     | none => c.dbnameIn = a.dbnameIn ∧ c.dbnameInBlame = a.dbnameInBlame) := by
  intro props
  induction props with
  | nil =>
    intro a c h
    injection h with h1
    simp only [lastNamed]
    rw [h1]
    exact ⟨rfl, rfl⟩
  | cons p rest ih =>
    intro a c h
    obtain ⟨m, w0⟩ := p
    unfold initAttrChange at h
    split at h <;> try exact SemResult.noConfusion h
    rename_i a1 hp
    have hchar := procProp_ok_char hp
    have hrest := ih a1 c h
    simp only [lastNamed]
    rcases hlast : lastNamed "dbnameIn" rest with _ | w
    · rw [hlast] at hrest
      simp only [] at hrest
      rcases hchar with ⟨hn, t, ht, ha1⟩ | ⟨hn, ha1⟩ | ⟨hn, ha1⟩ | ⟨hn, ha1⟩ <;>
        rw [ha1] at hrest <;>
        simp only [] at hrest <;>
        simp [hn, hrest]
    · rw [hlast] at hrest
      simp only [] at hrest
      simp [hrest]



/-- A successful build's `DbnameRewritten` fields are decided by the
last `dbnameRewritten` entry, or left at their incoming values. -/
theorem init_dbnameRewritten_char {env : NetOracle} :
    ∀ (props : List (Token × Token)) (a c : AttrChange),
    initAttrChange env a props = .ok c →
    (match lastNamed "dbnameRewritten" props with
     | some w => c.dbnameRewritten = w.lexeme ∧ c.dbnameRewrittenBlame = some w
     | none => c.dbnameRewritten = a.dbnameRewritten ∧
         c.dbnameRewrittenBlame = a.dbnameRewrittenBlame) := by
  intro props
  induction props with
  | nil =>
    intro a c h
    injection h with h1
    simp only [lastNamed]
    rw [h1]
    exact ⟨rfl, rfl⟩
  | cons p rest ih =>
    intro a c h
    obtain ⟨m, w0⟩ := p
    unfold initAttrChange at h
    split at h <;> try exact SemResult.noConfusion h
    rename_i a1 hp
    have hchar := procProp_ok_char hp
    have hrest := ih a1 c h
    simp only [lastNamed]
    rcases hlast : lastNamed "dbnameRewritten" rest with _ | w
    · rw [hlast] at hrest
      simp only [] at hrest
      rcases hchar with ⟨hn, t, ht, ha1⟩ | ⟨hn, ha1⟩ | ⟨hn, ha1⟩ | ⟨hn, ha1⟩ <;>
        rw [ha1] at hrest <;>
        simp only [] at hrest <;>
        simp [hn, hrest]
    · rw [hlast] at hrest
      simp only [] at hrest
      simp [hrest]

/-- A successful build's `Lock` fields are decided by the last `lock`
entry, or left at their incoming values. -/
theorem init_lock_char {env : NetOracle} :
    ∀ (props : List (Token × Token)) (a c : AttrChange),
    initAttrChange env a props = .ok c →
    (match lastNamed "lock" props with
     | some w => c.lock = (w.lexeme == lockTrueLit) ∧ c.lockBlame = some w
     | none => c.lock = a.lock ∧ c.lockBlame = a.lockBlame) := by
  intro props
  induction props with
  | nil =>
    intro a c h
    injection h with h1
    simp only [lastNamed]
    rw [h1]
    exact ⟨rfl, rfl⟩
  | cons p rest ih =>
    intro a c h
    obtain ⟨m, w0⟩ := p
    unfold initAttrChange at h
    split at h <;> try exact SemResult.noConfusion h
    rename_i a1 hp
    have hchar := procProp_ok_char hp
    have hrest := ih a1 c h
    simp only [lastNamed]
    rcases hlast : lastNamed "lock" rest with _ | w
    · rw [hlast] at hrest
      simp only [] at hrest
      rcases hchar with ⟨hn, t, ht, ha1⟩ | ⟨hn, ha1⟩ | ⟨hn, ha1⟩ | ⟨hn, ha1⟩ <;>
        rw [ha1] at hrest <;>
        simp only [] at hrest <;>
        simp [hn, hrest]
    · rw [hlast] at hrest
      simp only [] at hrest
      simp [hrest]

/-- A successful build's `Addr` fields are decided by the last `addr`
entry (through `hostPortToAddr`), or left at their incoming values. -/
theorem init_addr_char {env : NetOracle} :
    ∀ (props : List (Token × Token)) (a c : AttrChange),
    initAttrChange env a props = .ok c →
    (match lastNamed "addr" props with
     | some w => ∃ t,
         hostPortToAddr env "tcp" (String.mk (w.lexeme.data.drop 1).dropLast) = .ok t ∧
         c.addr = some t ∧ c.addrBlame = some w
     | none => c.addr = a.addr ∧ c.addrBlame = a.addrBlame) := by
  intro props
  induction props with
  | nil =>
    intro a c h
    injection h with h1
    simp only [lastNamed]
    rw [h1]
    exact ⟨rfl, rfl⟩
  | cons p rest ih =>
    intro a c h
    obtain ⟨m, w0⟩ := p
    unfold initAttrChange at h
    split at h <;> try exact SemResult.noConfusion h
    rename_i a1 hp
    have hchar := procProp_ok_char hp
    have hrest := ih a1 c h
    simp only [lastNamed]
    rcases hlast : lastNamed "addr" rest with _ | w
    · rw [hlast] at hrest
      simp only [] at hrest
      rcases hchar with ⟨hn, t, ht, ha1⟩ | ⟨hn, ha1⟩ | ⟨hn, ha1⟩ | ⟨hn, ha1⟩
      · rw [ha1] at hrest
        simp only [] at hrest
        simp only [hlast, hn]
        simp only [reduceIte]
        exact ⟨t, ht, hrest.1, hrest.2⟩
      · rw [ha1] at hrest
        simp only [] at hrest
        simp [hlast, hn, hrest]
      · rw [ha1] at hrest
        simp only [] at hrest
        simp [hlast, hn, hrest]
      · rw [ha1] at hrest
        simp only [] at hrest
        simp [hlast, hn, hrest]
    · rw [hlast] at hrest
      simp only [] at hrest
      simp only [hlast]
      exact hrest



/-- When no two entries share a field-name lexeme, the last entry per
name is independent of the enumeration order. -/
theorem lastNamed_perm {nm : String} {l1 l2 : List (Token × Token)} (hp : l1.Perm l2) :
    (l1.map (fun p => p.1.lexeme)).Nodup → lastNamed nm l1 = lastNamed nm l2 := by
  induction hp with
  | nil => intro _; rfl
  | cons x hp ih =>
    intro hnd
    simp only [lastNamed]
    rw [ih (by simpa using (List.Nodup.of_cons (by simpa using hnd)))]
  | swap x y l =>
    intro hnd
    have hxy : y.1.lexeme ≠ x.1.lexeme := by
      simp only [List.map_cons, List.nodup_cons, List.mem_cons] at hnd
      exact fun h => hnd.1 (Or.inl h)
    simp only [lastNamed]
    rcases hL : lastNamed nm l with _ | w
    · by_cases hx : x.1.lexeme = nm <;> by_cases hy : y.1.lexeme = nm
      · exact absurd (hy.trans hx.symm) hxy
      · simp [hx, hy]
      · simp [hx, hy]
      · simp [hx, hy]
    · simp
  | trans h12 h23 ih12 ih23 =>
    intro hnd
    refine (ih12 hnd).trans (ih23 ?_)
    have := (h12.map (fun p => p.1.lexeme)).nodup_iff
    exact this.mp hnd



/-- Two successful builds over two enumeration orders of the same
mapping with pairwise-distinct field names produce field-for-field
equal changes. -/
theorem init_perm_eq {env : NetOracle} {l1 l2 : List (Token × Token)}
    (hperm : l1.Perm l2)
    (hnd : (l1.map (fun p => p.1.lexeme)).Nodup)
    {a c1 c2 : AttrChange}
    (h1 : initAttrChange env a l1 = .ok c1)
    (h2 : initAttrChange env a l2 = .ok c2) : c1 = c2 := by
  have hdbi1 := init_dbnameIn_char l1 a c1 h1
  have hdbi2 := init_dbnameIn_char l2 a c2 h2
  have hdbr1 := init_dbnameRewritten_char l1 a c1 h1
  have hdbr2 := init_dbnameRewritten_char l2 a c2 h2
  have hlk1 := init_lock_char l1 a c1 h1
  have hlk2 := init_lock_char l2 a c2 h2
  have had1 := init_addr_char l1 a c1 h1
  have had2 := init_addr_char l2 a c2 h2
  rw [← @lastNamed_perm "dbnameIn" _ _ hperm hnd] at hdbi2
  rw [← @lastNamed_perm "dbnameRewritten" _ _ hperm hnd] at hdbr2
  rw [← @lastNamed_perm "lock" _ _ hperm hnd] at hlk2
  rw [← @lastNamed_perm "addr" _ _ hperm hnd] at had2
  have e1 : c1.dbnameIn = c2.dbnameIn ∧ c1.dbnameInBlame = c2.dbnameInBlame := by
    rcases hL : lastNamed "dbnameIn" l1 with _ | w <;>
      rw [hL] at hdbi1 hdbi2 <;>
      simp only [] at hdbi1 hdbi2 <;>
      exact ⟨hdbi1.1.trans hdbi2.1.symm, hdbi1.2.trans hdbi2.2.symm⟩
  have e2 : c1.dbnameRewritten = c2.dbnameRewritten ∧
      c1.dbnameRewrittenBlame = c2.dbnameRewrittenBlame := by
    rcases hL : lastNamed "dbnameRewritten" l1 with _ | w <;>
      rw [hL] at hdbr1 hdbr2 <;>
      simp only [] at hdbr1 hdbr2 <;>
      exact ⟨hdbr1.1.trans hdbr2.1.symm, hdbr1.2.trans hdbr2.2.symm⟩
  have e3 : c1.lock = c2.lock ∧ c1.lockBlame = c2.lockBlame := by
    rcases hL : lastNamed "lock" l1 with _ | w <;>
      rw [hL] at hlk1 hlk2 <;>
      simp only [] at hlk1 hlk2 <;>
      exact ⟨hlk1.1.trans hlk2.1.symm, hlk1.2.trans hlk2.2.symm⟩
  have e4 : c1.addr = c2.addr ∧ c1.addrBlame = c2.addrBlame := by
    rcases hL : lastNamed "addr" l1 with _ | w <;>
      rw [hL] at had1 had2 <;>
      simp only [] at had1 had2
    · exact ⟨had1.1.trans had2.1.symm, had1.2.trans had2.2.symm⟩
    · obtain ⟨t1, ht1, hc1, hb1⟩ := had1
      obtain ⟨t2, ht2, hc2, hb2⟩ := had2
      have ht : t1 = t2 := by
        have := ht1.symm.trans ht2
        injection this
      rw [ht] at hc1
      exact ⟨hc1.trans hc2.symm, hb1.trans hb2.symm⟩
  obtain ⟨c1b, c1a, c1ib, c1i, c1rb, c1r, c1lb, c1l⟩ := c1
  obtain ⟨c2b, c2a, c2ib, c2i, c2rb, c2r, c2lb, c2l⟩ := c2
  simp only [AttrChange.mk.injEq]
  simp only [] at e1 e2 e3 e4
  exact ⟨e4.2, e4.1, e1.2, e1.1, e2.2, e2.1, e3.2, e3.1⟩



/-- C9 amended: `Analyze` is deterministic in its successful output
provided no two entries of the request's property mapping share a
field-name lexeme: analyzing the same request under any two
enumeration orders of the mapping yields field-for-field equal
directives. -/
theorem c9_order_independent (env : NetOracle) (req : RequestSyn)
    (l1 l2 : List (Token × Token))
    (hprops : reqProps req = some l1) (hperm : l1.Perm l2)
    (hnd : (l1.map (fun p => p.1.lexeme)).Nodup)
    (d1 d2 : Directive)
    (h1 : Analyze env req = .ok (some d1))
    (h2 : Analyze env (withProps req l2) = .ok (some d2)) :
    d1 = d2 := by
  obtain ⟨act, spec⟩ := req
  cases act with
  | patch a =>
    simp only [reqProps] at hprops
    injection hprops with hl1
    simp only [withProps] at h2
    cases spec with
    | ocn t =>
      simp only [Analyze, analyzePatch] at h1 h2
      rcases hu : parseUint64 t.ocn.lexeme with m | nn <;> rw [hu] at h1 h2
      · exact SemResult.noConfusion h1
      · simp only [] at h1 h2
        unfold newPatchDirective at h1 h2
        split at h1 <;> try exact SemResult.noConfusion h1
        rename_i c1 hi1
        split at h2 <;> try exact SemResult.noConfusion h2
        rename_i c2 hi2
        injection h1 with h1'
        injection h2 with h2'
        injection h1' with h1''
        injection h2' with h2''
        rw [← h1'', ← h2'']
        have : c1 = c2 := init_perm_eq hperm (hl1 ▸ hnd) (hl1 ▸ hi1) hi2
        rw [this]
    | all t =>
      simp only [Analyze, analyzePatch] at h1
      exact SemResult.noConfusion h1
    | one t =>
      simp only [Analyze, analyzePatch] at h1
      exact SemResult.noConfusion h1
  | create a =>
    simp only [reqProps] at hprops
    injection hprops with hl1
    simp only [withProps] at h2
    cases spec with
    | one t =>
      simp only [Analyze, analyzeCreate] at h1 h2
      unfold newCreateDirective at h1 h2
      split at h1 <;> try exact SemResult.noConfusion h1
      rename_i c1 hi1
      split at h2 <;> try exact SemResult.noConfusion h2
      rename_i c2 hi2
      injection h1 with h1'
      injection h2 with h2'
      injection h1' with h1''
      injection h2' with h2''
      rw [← h1'', ← h2'']
      have : c1 = c2 := init_perm_eq hperm (hl1 ▸ hnd) (hl1 ▸ hi1) hi2
      rw [this]
    | all t =>
      simp only [Analyze, analyzeCreate] at h1
      exact SemResult.noConfusion h1
    | ocn t =>
      simp only [Analyze, analyzeCreate] at h1
      exact SemResult.noConfusion h1
  | get a =>
    simp only [reqProps] at hprops
    exact Option.noConfusion hprops
  | delete a =>
    simp only [reqProps] at hprops
    exact Option.noConfusion hprops



/-- First `dbnameIn` field-name token (a distinct map key). -/
def dbInTokA : Token := ⟨"dbnameIn", ⟨7, 5⟩⟩
/-- Second `dbnameIn` field-name token (another distinct map key with
the same lexeme). -/
def dbInTokB : Token := ⟨"dbnameIn", ⟨7, 25⟩⟩
/-- Sample value token `x`. -/
def dbValX : Token := ⟨"x", ⟨7, 14⟩⟩
/-- Sample value token `y`. -/
def dbValY : Token := ⟨"y", ⟨7, 34⟩⟩
/-- One iteration order of a property map holding two entries that
both name `dbnameIn`. -/
def c9l1 : List (Token × Token) := [(dbInTokA, dbValX), (dbInTokB, dbValY)]
/-- The other iteration order of the same map. -/
def c9l2 : List (Token × Token) := [(dbInTokB, dbValY), (dbInTokA, dbValX)]

/-- C9 counterexample: a property map with two distinct `dbnameIn`
keys (legal, since Go map keys are token pointers) analyzed under its
two iteration orders — Go does not fix which one a given run sees —
yields two successful Patch directives that differ field-for-field
(`DbnameIn` is `"y"` under one order, `"x"` under the other), so
analyzing the same request value twice is not deterministic. -/
theorem c9_counterexample :
    c9l1.Perm c9l2 ∧
    Analyze testEnv (patchOcnReq c9l1) =
      .ok (some (.patch
        { pos := ⟨1, 1⟩
          target := { pos := ⟨1, 8⟩
                      targetOne := { pos := ⟨1, 8⟩, what := "7" }
                      ocn := 7 }
          change := { dbnameInBlame := some dbValY, dbnameIn := "y" } })) ∧
    Analyze testEnv (patchOcnReq c9l2) =
      .ok (some (.patch
        { pos := ⟨1, 1⟩
          target := { pos := ⟨1, 8⟩
                      targetOne := { pos := ⟨1, 8⟩, what := "7" }
                      ocn := 7 }
          change := { dbnameInBlame := some dbValX, dbnameIn := "x" } })) ∧
    Analyze testEnv (patchOcnReq c9l1) ≠ Analyze testEnv (patchOcnReq c9l2) :=
  ⟨List.Perm.swap (dbInTokB, dbValY) (dbInTokA, dbValX) [],
    by decide, by decide, by decide⟩

/-- A duplicate-free property mapping in one order. -/
def c9wl1 : List (Token × Token) := [(dbInTokA, dbValX), (lockNameTok, lockTrueTok)]
/-- The same duplicate-free mapping in the other order. -/
def c9wl2 : List (Token × Token) := [(lockNameTok, lockTrueTok), (dbInTokA, dbValX)]

/-- The directive both orders of `c9wl1` produce. -/
def c9okDir : Directive :=
  .patch
    { pos := ⟨1, 1⟩
      target := { pos := ⟨1, 8⟩
                  targetOne := { pos := ⟨1, 8⟩, what := "7" }
                  ocn := 7 }
      change := { dbnameInBlame := some dbValX, dbnameIn := "x"
                  lockBlame := some lockTrueTok, lock := true } }

/-- C9 amended: `Analyze` is deterministic in its successful output
provided no two entries of the request's property mapping share a
field-name lexeme: analyzing the same request under any two
enumeration orders of the mapping yields field-for-field equal
directives. -/
theorem c9_order_independent_witness :
    Analyze testEnv (patchOcnReq c9wl1) = .ok (some c9okDir) ∧
    Analyze testEnv (withProps (patchOcnReq c9wl1) c9wl2) = .ok (some c9okDir) ∧
    c9okDir = c9okDir :=
  ⟨by decide, by decide,
    c9_order_independent testEnv (patchOcnReq c9wl1) c9wl1 c9wl2 rfl
      (List.Perm.swap (lockNameTok, lockTrueTok) (dbInTokA, dbValX) [])
      (by decide) c9okDir c9okDir (by decide) (by decide)⟩


end Dogconf






